import Mathlib

/-!
Shallow Lean embedding of the `project-manager` CLI (TypeScript/Bun sources:
`src/types.ts` (zod schemas and default catalogs), `src/config.ts` (config
store), `src/lib/launcher.ts` (process launcher), `src/flows/launch.ts`
(launch flow and quick-launch resolver), `src/flows/manage.ts` (workspace
management flow).

Modelling conventions:
* JSON documents are an inductive `Json` value; `JSON.parse` either throws or
  yields such a value, so a config file on disk is a `FileState`
  (absent / unparseable / parsed json).
* zod `Schema.parse` calls become `Option`-valued validators (`none` = the
  `parse` call threw a validation error).
* Process spawning and glob enumeration are external effects, modelled by a
  `LaunchEnv` oracle; `launchTool` returns a trace (`LaunchResult`) recording
  the glob calls issued, the spawn commands attempted in order, and which
  user-facing error reports were emitted.
-/

/-- A parsed JSON value (result of a successful `JSON.parse`). -/
inductive Json where
  | null : Json
  | bool : Bool → Json
  | num : Int → Json
  | str : String → Json
  | arr : List Json → Json
  | obj : List (String × Json) → Json

/-- State of one config file on disk: missing, present but `JSON.parse`
throws, or present and parsed to a `Json` value. -/
inductive FileState where
  | absent : FileState
  | unparseable : FileState
  | parsed : Json → FileState

/-- Look up an object field by key (JS object property access). -/
def Json.lookupField : List (String × Json) → String → Option Json
  | [], _ => none
  | (k, v) :: rest, key => if k == key then some v else Json.lookupField rest key

/-- `z.string()` on a field value. -/
def parseStr : Json → Option String
  | .str s => some s
  | _ => none

/-- `z.string().optional()` field: absent key passes as `none`, a present
value must be a string. -/
def optStrField (fs : List (String × Json)) (key : String) : Option (Option String) :=
  match Json.lookupField fs key with
  | none => some none
  | some v => (parseStr v).map some

/-- `z.boolean().default(d)` field: absent key yields the default, a present
value must be a boolean. -/
def boolFieldD (fs : List (String × Json)) (key : String) (d : Bool) : Option Bool :=
  match Json.lookupField fs key with
  | none => some d
  | some (.bool b) => some b
  | some _ => none

/-- `z.string().default(d)` field. -/
def strFieldD (fs : List (String × Json)) (key : String) (d : String) : Option String :=
  match Json.lookupField fs key with
  | none => some d
  | some v => parseStr v

/-- Element-wise parse of a JSON list, failing if any element fails
(`z.array(S)` semantics over the element validator). -/
def parseList (f : Json → Option α) : List Json → Option (List α)
  | [] => some []
  | j :: rest => do
      let a ← f j
      let as ← parseList f rest
      pure (a :: as)

/-- `z.array(S).parse`: the value must be a JSON array of valid elements. -/
def parseArr (f : Json → Option α) : Json → Option (List α)
  | .arr xs => parseList f xs
  | _ => none

/-- `Workspace` (src/types.ts `WorkspaceSchema`): a named sub-path of a
project, `path` relative to the owning project's path. -/
structure Workspace where
  name : String
  path : String
deriving DecidableEq

/-- `Project` (src/types.ts `ProjectSchema`). Field order: name, path,
workspaces, command. -/
structure Project where
  name : String
  path : String
  workspaces : List Workspace
  command : Option String
deriving DecidableEq

/-- `Tool` (src/types.ts `ToolSchema`). Field order: id, name, executable,
versionArgs, updateCommand, enabled, launchInTerminal, supportsAdmin,
requiresAdmin, launchArgs, projectFilePatterns.

`requiresAdmin` is NOT a `ToolSchema` field: the launcher
(src/lib/launcher.ts) reads `tool.requiresAdmin` even though the schema only
declares `supportsAdmin`. At the JS runtime, reading the absent property
yields `undefined` (falsy); the embedding carries it as an explicit `Bool`
that schema parsing always sets to `false` (see `parseTool`). -/
structure Tool where
  id : String
  name : String
  executable : String
  versionArgs : Option String
  updateCommand : Option String
  enabled : Bool
  launchInTerminal : Bool
  supportsAdmin : Bool
  requiresAdmin : Bool
  launchArgs : Option String
  projectFilePatterns : Option (List String)
deriving DecidableEq

/-- `Settings` (src/types.ts `SettingsSchema`). -/
structure Settings where
  defaultCodePath : String
  defaultTool : String
deriving DecidableEq

/-- `WorkspaceSchema.parse` on one JSON value. -/
def parseWorkspace : Json → Option Workspace
  | .obj fs => do
      let n ← (Json.lookupField fs "name").bind parseStr
      let p ← (Json.lookupField fs "path").bind parseStr
      pure ⟨n, p⟩
  | _ => none

/-- `ProjectSchema.parse` on one JSON value. `workspaces` defaults to
`[{ name: "Root", path: "." }]` when the key is absent. -/
def parseProject : Json → Option Project
  | .obj fs => do
      let n ← (Json.lookupField fs "name").bind parseStr
      let p ← (Json.lookupField fs "path").bind parseStr
      let ws ← match Json.lookupField fs "workspaces" with
        | none => some [⟨"Root", "."⟩]
        | some v => parseArr parseWorkspace v
      let cmd ← optStrField fs "command"
      pure ⟨n, p, ws, cmd⟩
  | _ => none

/-- `ConfigSchema.parse` (`z.array(ProjectSchema)`). -/
def parseConfig : Json → Option (List Project) :=
  parseArr parseProject

/-- `ToolSchema.parse` on one JSON value. Defaults: `enabled` true,
`launchInTerminal` false, `supportsAdmin` false. zod strips unknown keys, so
a `requiresAdmin` property in the document never survives parsing: the
resulting tool always has `requiresAdmin = false` (absent property). -/
def parseTool : Json → Option Tool
  | .obj fs => do
      let i ← (Json.lookupField fs "id").bind parseStr
      let n ← (Json.lookupField fs "name").bind parseStr
      let ex ← (Json.lookupField fs "executable").bind parseStr
      let va ← optStrField fs "versionArgs"
      let uc ← optStrField fs "updateCommand"
      let en ← boolFieldD fs "enabled" true
      let lit ← boolFieldD fs "launchInTerminal" false
      let sa ← boolFieldD fs "supportsAdmin" false
      let la ← optStrField fs "launchArgs"
      let pfp ← match Json.lookupField fs "projectFilePatterns" with
        | none => some none
        | some v => (parseArr parseStr v).map some
      pure ⟨i, n, ex, va, uc, en, lit, sa, false, la, pfp⟩
  | _ => none

/-- `ToolsConfigSchema.parse` (`z.array(ToolSchema)`). -/
def parseToolsConfig : Json → Option (List Tool) :=
  parseArr parseTool

/-- `SettingsSchema.parse`. Defaults: `defaultCodePath` "D:/code/git",
`defaultTool` "claude". -/
def parseSettings : Json → Option Settings
  | .obj fs => do
      let cp ← strFieldD fs "defaultCodePath" "D:/code/git"
      let dt ← strFieldD fs "defaultTool" "claude"
      pure ⟨cp, dt⟩
  | _ => none

/-- `getDefaultProjects()` (src/types.ts): the empty list. -/
def getDefaultProjects : List Project := []

/-- `DEFAULT_SETTINGS` (src/types.ts). -/
def DEFAULT_SETTINGS : Settings := ⟨"D:/code/git", "claude"⟩

/-- `DEFAULT_TOOLS` (src/types.ts): the built-in tool catalog, transcribed
entry by entry. Tool field order: id, name, executable, versionArgs,
updateCommand, enabled, launchInTerminal, supportsAdmin, requiresAdmin
(never set by the source literals, hence false), launchArgs,
projectFilePatterns. -/
def DEFAULT_TOOLS : List Tool := [
  ⟨"claude", "Claude Code", "claude", some "--version", some "claude update",
    true, true, true, false, none, none⟩,
  ⟨"gemini", "Gemini CLI", "gemini", some "--version",
    some "bun update --global @google/gemini-cli",
    true, true, true, false, none, none⟩,
  ⟨"antigravity", "Antigravity", "antigravity", none, none,
    true, false, false, false, none, some ["*.code-workspace"]⟩,
  ⟨"vscode", "VS Code", "code", none, none,
    true, false, false, false, none, some ["*.code-workspace"]⟩,
  ⟨"vscode-insiders", "VS Code Insiders", "code-insiders", none, none,
    false, false, false, false, none, some ["*.code-workspace"]⟩,
  ⟨"vs", "Visual Studio", "devenv", none, none,
    false, false, false, false, none, some ["*.slnx", "*.sln"]⟩,
  ⟨"rider", "Rider", "rider", none, none,
    true, false, false, false, none, some ["*.slnx", "*.sln"]⟩,
  ⟨"idea", "IntelliJ IDEA", "idea", none, none,
    true, false, false, false, none, none⟩,
  ⟨"webstorm", "WebStorm", "webstorm", none, none,
    true, false, false, false, none, none⟩,
  ⟨"pycharm", "PyCharm", "pycharm", none, none,
    false, false, false, false, none, none⟩,
  ⟨"goland", "GoLand", "goland", none, none,
    false, false, false, false, none, none⟩,
  ⟨"clion", "CLion", "clion", none, none,
    false, false, false, false, none, none⟩,
  ⟨"phpstorm", "PhpStorm", "phpstorm", none, none,
    false, false, false, false, none, none⟩,
  ⟨"rubymine", "RubyMine", "rubymine", none, none,
    false, false, false, false, none, none⟩,
  ⟨"datagrip", "DataGrip", "datagrip", none, none,
    true, false, false, false, none, none⟩,
  ⟨"fleet", "Fleet", "fleet", none, none,
    false, false, false, false, none, none⟩,
  ⟨"aqua", "Aqua", "aqua", none, none,
    false, false, false, false, none, none⟩,
  ⟨"rustrover", "RustRover", "rustrover", none, none,
    false, false, false, false, none, none⟩,
  ⟨"terminal", "Windows Terminal", "wt", none, none,
    true, false, false, false, some "-d", none⟩,
  ⟨"explorer", "Explorer", "explorer", none, none,
    true, false, false, false, none, none⟩]

/-- `loadProjects()` (src/config.ts): absent file → default; parse or
validation error → default (caught); a valid non-empty array is returned
as-is, an empty array is replaced by `getDefaultProjects()`. -/
def loadProjects : FileState → List Project
  | .absent => getDefaultProjects
  | .unparseable => getDefaultProjects
  | .parsed j =>
      match parseConfig j with
      | none => getDefaultProjects
      | some ps => if ps.length > 0 then ps else getDefaultProjects

/-- `loadRecents()` (src/config.ts): absent or unparseable → `[]`; otherwise
the raw `JSON.parse` result is returned with NO schema validation (the TS
annotation `string[]` is a cast, not a check). -/
def loadRecents : FileState → Json
  | .absent => .arr []
  | .unparseable => .arr []
  | .parsed j => j

/-- `loadTools()` (src/config.ts): absent file → built-in defaults; parse or
validation error → defaults (caught); a valid non-empty array is returned
as-is, an empty array is replaced by `DEFAULT_TOOLS`. -/
def loadTools : FileState → List Tool
  | .absent => DEFAULT_TOOLS
  | .unparseable => DEFAULT_TOOLS
  | .parsed j =>
      match parseToolsConfig j with
      | none => DEFAULT_TOOLS
      | some ts => if ts.length > 0 then ts else DEFAULT_TOOLS

/-- `loadSettings()` (src/config.ts): absent file → `DEFAULT_SETTINGS`;
parse or validation error → `DEFAULT_SETTINGS` (caught). -/
def loadSettings : FileState → Settings
  | .absent => DEFAULT_SETTINGS
  | .unparseable => DEFAULT_SETTINGS
  | .parsed j =>
      match parseSettings j with
      | none => DEFAULT_SETTINGS
      | some s => s

/-- `JSON.stringify` of one Workspace. -/
def workspaceToJson (w : Workspace) : Json :=
  .obj [("name", .str w.name), ("path", .str w.path)]

/-- `JSON.stringify` of one Project: `undefined` optional fields
(`command = none`) are omitted from the serialized object. -/
def projectToJson (p : Project) : Json :=
  .obj ([("name", .str p.name), ("path", .str p.path),
         ("workspaces", .arr (p.workspaces.map workspaceToJson))] ++
        (match p.command with
         | none => []
         | some c => [("command", .str c)]))

/-- `JSON.stringify` of one Tool: `undefined` optional fields are omitted;
`requiresAdmin` is not a property of schema-typed tool objects and is never
serialized. -/
def toolToJson (t : Tool) : Json :=
  .obj ([("id", .str t.id), ("name", .str t.name),
         ("executable", .str t.executable)] ++
        (match t.versionArgs with
         | none => []
         | some v => [("versionArgs", .str v)]) ++
        (match t.updateCommand with
         | none => []
         | some v => [("updateCommand", .str v)]) ++
        [("enabled", .bool t.enabled),
         ("launchInTerminal", .bool t.launchInTerminal),
         ("supportsAdmin", .bool t.supportsAdmin)] ++
        (match t.launchArgs with
         | none => []
         | some v => [("launchArgs", .str v)]) ++
        (match t.projectFilePatterns with
         | none => []
         | some ps => [("projectFilePatterns", .arr (ps.map Json.str))]))

/-- `saveProjects(projects)` (src/config.ts): writes
`JSON.stringify(projects, null, 2)`; the file afterwards parses back to
exactly the serialized JSON value. -/
def saveProjects (ps : List Project) : FileState :=
  .parsed (.arr (ps.map projectToJson))

/-- `saveTools(tools)` (src/config.ts). -/
def saveTools (ts : List Tool) : FileState :=
  .parsed (.arr (ts.map toolToJson))

/-- `addRecent(projectName)` (src/config.ts) at the list level: remove any
existing occurrence, prepend, keep the first 10, persist. -/
def addRecent (recents : List String) (projectName : String) : List String :=
  (projectName :: recents.filter (fun r => r ≠ projectName)).take 10

/-- Does `pat` occur as a contiguous run somewhere in the character list? -/
def charsInclude (pat : List Char) : List Char → Bool
  | [] => pat.isEmpty
  | c :: rest => pat.isPrefixOf (c :: rest) || charsInclude pat rest

/-- JS string `s.includes(pat)` (substring containment; every string
includes the empty string). -/
def strIncludes (s pat : String) : Bool :=
  charsInclude pat.data s.data

/-- JS `s.toLowerCase()`: per-character case folding (character-list map,
so that concrete instances evaluate structurally). -/
def jsToLower (s : String) : String :=
  String.mk (s.data.map Char.toLower)

/-- JS truthiness of an optional string argument (`undefined` and `""` are
falsy). -/
def jsTruthy : Option String → Bool
  | none => false
  | some s => s ≠ ""

/-- The predicate of quick-launch's single `projects.find(...)` pass
(src/flows/launch.ts): exact case-insensitive name equality OR
case-insensitive substring containment of the query in the name. -/
def projectMatches (query : String) (p : Project) : Bool :=
  jsToLower p.name == jsToLower query || strIncludes (jsToLower p.name) (jsToLower query)

/-- Quick-launch project resolution (src/flows/launch.ts `quickLaunch`):
one `find` scan over the stored order with `projectMatches`. -/
def findProjectByQuery (projects : List Project) (query : String) : Option Project :=
  projects.find? (projectMatches query)

/-- The resolution the spec describes for comparison (refinement target,
from the spec's words): exact case-insensitive match first over the whole
list, and only if none exists, substring containment. -/
def findProjectSpecDescribed (projects : List Project) (query : String) : Option Project :=
  match projects.find? (fun p => jsToLower p.name == jsToLower query) with
  | some p => some p
  | none => projects.find? (fun p => strIncludes (jsToLower p.name) (jsToLower query))

/-- The tool list the interactive launch flow offers
(src/flows/launch.ts `launchFlow`): `loadTools().filter((t) => t.enabled)`. -/
def launchFlowEligible (tools : List Tool) : List Tool :=
  tools.filter (fun t => t.enabled)

/-- Quick-launch tool resolution (src/flows/launch.ts `quickLaunch`): filter
to enabled tools; with a truthy `toolId`, find by exact id or
case-insensitive display-name substring; otherwise take the first enabled
tool (`tools[0]`, `none` when there is none). -/
def resolveQuickTool (tools : List Tool) (toolId : Option String) : Option Tool :=
  let enabled := tools.filter (fun t => t.enabled)
  if jsTruthy toolId then
    let tid := toolId.getD ""
    enabled.find? (fun t => t.id == tid || strIncludes (jsToLower t.name) (jsToLower tid))
  else
    enabled.head?

/-- One `fast-glob` invocation as issued by `findProjectFile`
(src/lib/launcher.ts): cwd, patterns, and the fixed options
`deep: 1, onlyFiles: true, absolute: true`. -/
structure GlobCall where
  cwd : String
  patterns : List String
  deep : Nat
  onlyFiles : Bool
  absolute : Bool
deriving DecidableEq

/-- One `spawnDetached(command, args, cwd)` call (src/lib/launcher.ts). -/
structure SpawnCmd where
  command : String
  args : List String
  cwd : String
deriving DecidableEq

/-- External-effect oracle for `launchTool`: the glob engine's enumeration
for a given call, and whether a given spawn succeeds (false = the spawn
throws). -/
structure LaunchEnv where
  glob : GlobCall → List String
  spawnOk : SpawnCmd → Bool

/-- The glob call `findProjectFile(workspacePath, patterns)` issues. -/
def globCallOf (workspacePath : String) (patterns : List String) : GlobCall :=
  ⟨workspacePath, patterns, 1, true, true⟩

/-- `findProjectFile` (src/lib/launcher.ts): first match of the glob
enumeration, or `none`. -/
def findProjectFile (env : LaunchEnv) (workspacePath : String)
    (patterns : List String) : Option String :=
  (env.glob (globCallOf workspacePath patterns)).head?

/-- Target resolution step of `launchTool`: with a non-empty
`projectFilePatterns` list, the first glob match (if any) replaces the
workspace directory as launch target. -/
def resolveTarget (env : LaunchEnv) (tool : Tool) (workspacePath : String) : String :=
  match tool.projectFilePatterns with
  | some pats =>
      if pats.length > 0 then
        match findProjectFile env workspacePath pats with
        | some f => f
        | none => workspacePath
      else workspacePath
  | none => workspacePath

/-- The glob calls `launchTool` issues while resolving the target. -/
def globCallsOf (tool : Tool) (workspacePath : String) : List GlobCall :=
  match tool.projectFilePatterns with
  | some pats =>
      if pats.length > 0 then [globCallOf workspacePath pats] else []
  | none => []

/-- The primary spawn `launchTool` performs, by the source's dispatch order:
terminal-mode (with gsudo elevation iff `requiresAdmin`), then the
explorer / terminal / gitbash id special cases, then the generic
editor/IDE spawn with optional launch-args prefix and the resolved target. -/
def primaryCmd (tool : Tool) (workspacePath target : String) : SpawnCmd :=
  if tool.launchInTerminal then
    if tool.requiresAdmin then
      ⟨"gsudo", ["wt", "-d", workspacePath, "pwsh", "-NoExit", "-Command",
        tool.executable], workspacePath⟩
    else
      ⟨"wt", ["-d", workspacePath, "pwsh", "-NoExit", "-Command",
        tool.executable], workspacePath⟩
  else if tool.id == "explorer" then
    ⟨"explorer", [workspacePath], workspacePath⟩
  else if tool.id == "terminal" then
    ⟨"wt", ["-d", workspacePath], workspacePath⟩
  else if tool.id == "gitbash" then
    ⟨"git-bash", ["--cd=" ++ workspacePath], workspacePath⟩
  else
    ⟨tool.executable,
      (match tool.launchArgs with
       | some a => [a]
       | none => []) ++ [target], workspacePath⟩

/-- The fallback spawn for terminal-mode tools: a terminal at the workspace
directory with no `-Command`. -/
def fallbackCmd (workspacePath : String) : SpawnCmd :=
  ⟨"wt", ["-d", workspacePath, "pwsh", "-NoExit"], workspacePath⟩

/-- Observable trace of one `launchTool` call. -/
structure LaunchResult where
  target : String
  globCalls : List GlobCall
  attempts : List SpawnCmd
  success : Bool
  failureReported : Bool
  fallbackFailureReported : Bool
  pausedForAck : Bool
deriving DecidableEq

/-- `launchTool(tool, workspacePath)` (src/lib/launcher.ts): resolve the
target, spawn the dispatched command; on a throw, report the failure, for
terminal-mode tools attempt exactly one fallback spawn (reporting again if
that also throws), and pause for acknowledgement. -/
def launchTool (env : LaunchEnv) (tool : Tool) (workspacePath : String) : LaunchResult :=
  let target := resolveTarget env tool workspacePath
  let gcs := globCallsOf tool workspacePath
  let primary := primaryCmd tool workspacePath target
  if env.spawnOk primary then
    ⟨target, gcs, [primary], true, false, false, false⟩
  else if tool.launchInTerminal then
    ⟨target, gcs, [primary, fallbackCmd workspacePath], false, true,
      !env.spawnOk (fallbackCmd workspacePath), true⟩
  else
    ⟨target, gcs, [primary], false, true, false, true⟩

/-- Remove exactly the element at one index (`workspaces.splice(idx, 1)`);
an out-of-range index removes nothing. -/
def spliceOne : List α → Nat → List α
  | [], _ => []
  | _ :: rest, 0 => rest
  | w :: rest, i + 1 => w :: spliceOne rest i

/-- Set the name of the workspace at one index (in-place `ws.name = n`). -/
def wsSetName : List Workspace → Nat → String → List Workspace
  | [], _, _ => []
  | w :: rest, 0, n => ⟨n, w.path⟩ :: rest
  | w :: rest, i + 1, n => w :: wsSetName rest i n

/-- Set the path of the workspace at one index (in-place `ws.path = p`,
with an empty input replaced by `"."`). -/
def wsSetPath : List Workspace → Nat → String → List Workspace
  | [], _, _ => []
  | w :: rest, 0, p => ⟨w.name, if p = "" then "." else p⟩ :: rest
  | w :: rest, i + 1, p => w :: wsSetPath rest i p

/-- The delete branch of `manageWorkspaces` (src/flows/manage.ts): index 0
is rejected with a warning and nothing is saved; otherwise a confirmed
delete splices that entry out and saves, an unconfirmed one changes and
saves nothing. The boolean records whether `saveProjects` ran. -/
def wsDelete (workspaces : List Workspace) (idx : Nat) (confirmed : Bool) :
    List Workspace × Bool :=
  if idx = 0 then (workspaces, false)
  else if confirmed then (spliceOne workspaces idx, true)
  else (workspaces, false)

/-- A workspace operation of the `manageWorkspaces` flow. -/
inductive WsOp where
  | add : Workspace → WsOp
  | rename : Nat → String → WsOp
  | changePath : Nat → String → WsOp
  | delete : Nat → Bool → WsOp

/-- Effect of one `manageWorkspaces` operation on a project's workspaces
sequence (src/flows/manage.ts): push for add, in-place field update for
rename / path change, `wsDelete` for delete. -/
def applyWsOp (workspaces : List Workspace) : WsOp → List Workspace
  | .add w => workspaces ++ [w]
  | .rename i n => wsSetName workspaces i n
  | .changePath i p => wsSetPath workspaces i p
  | .delete i c => (wsDelete workspaces i c).1

/-! ## Helper lemmas -/

theorem head?_filter (p : α → Bool) (l : List α) :
    (l.filter p).head? = l.find? p := by
  induction l with
  | nil => rfl
  | cons a l ih =>
    cases h : p a
    · rw [List.filter_cons, List.find?_cons, h, if_neg (by simp)]
      exact ih
    · rw [List.filter_cons, List.find?_cons, h]
      simp

theorem spliceOne_length (l : List α) (i : Nat) (h : i < l.length) :
    (spliceOne l i).length + 1 = l.length := by
  induction l generalizing i with
  | nil => simp at h
  | cons a rest ih =>
    cases i with
    | zero => simp [spliceOne]
    | succ k =>
      simp only [spliceOne, List.length_cons]
      have := ih k (by simpa using h)
      omega

theorem spliceOne_get?_lt (l : List α) (i j : Nat) (h : j < i) :
    (spliceOne l i).get? j = l.get? j := by
  induction l generalizing i j with
  | nil => cases i <;> rfl
  | cons a rest ih =>
    cases i with
    | zero => omega
    | succ k =>
      cases j with
      | zero => rfl
      | succ m => simpa [spliceOne] using ih k m (by omega)

theorem spliceOne_get?_ge (l : List α) (i j : Nat) (hij : i ≤ j)
    (h : i < l.length) : (spliceOne l i).get? j = l.get? (j + 1) := by
  induction l generalizing i j with
  | nil => simp at h
  | cons a rest ih =>
    cases i with
    | zero => cases j <;> rfl
    | succ k =>
      cases j with
      | zero => omega
      | succ m => simpa [spliceOne] using ih k m (by omega) (by simpa using h)

theorem spliceOne_head? (l : List α) (i : Nat) (h : i ≠ 0) :
    (spliceOne l i).head? = l.head? := by
  cases l with
  | nil => cases i <;> rfl
  | cons a rest =>
    cases i with
    | zero => omega
    | succ k => rfl

/-! ## Claim theorems -/

/-- C4: for every prior persisted recents list and every project name,
`addRecent(name)` produces a list with `name` exactly once, at index 0, of
length at most 10, and `addRecent` is idempotent under repeated calls with
the same name. -/
theorem addRecent_spec (recents : List String) (name : String) :
    (addRecent recents name).head? = some name ∧
    (addRecent recents name).count name = 1 ∧
    (addRecent recents name).length ≤ 10 ∧
    addRecent (addRecent recents name) name = addRecent recents name := by
  have h10 : (10 : Nat) = 9 + 1 := rfl
  have hsplit : addRecent recents name =
      name :: (recents.filter (fun r => r ≠ name)).take 9 := by
    rw [addRecent, h10, List.take_succ_cons]
  have hnotmem : name ∉ (recents.filter (fun r => r ≠ name)).take 9 := by
    intro hmem
    have := List.mem_filter.1 (List.take_subset _ _ hmem)
    simp at this
  refine ⟨?_, ?_, ?_, ?_⟩
  · rw [hsplit]; rfl
  · rw [hsplit, List.count_cons_self, List.count_eq_zero.2 hnotmem]
  · rw [addRecent]; exact List.length_take_le _ _
  · rw [hsplit, addRecent, List.filter_cons]
    have hkeep : ((recents.filter (fun r => r ≠ name)).take 9).filter
        (fun r => r ≠ name) = (recents.filter (fun r => r ≠ name)).take 9 := by
      apply List.filter_eq_self.2
      intro a ha
      have := List.mem_filter.1 (List.take_subset _ _ ha)
      simpa using this.2
    rw [if_neg (by simp), hkeep, h10, List.take_succ_cons,
      List.take_take, Nat.min_self]

/-- C3 counterexample: the claim fails for the recents document. A
`recents.json` that parses to the JSON number 42 — not the documented
schema (an array of up to 10 strings) — is returned unchanged by
`loadRecents` instead of the documented default `[]`, because `loadRecents`
performs no schema validation at all. -/
theorem loadRecents_skips_validation_cex :
    loadRecents (.parsed (Json.num 42)) = Json.num 42 ∧
    Json.num 42 ≠ Json.arr [] :=
  ⟨rfl, fun h => Json.noConfusion h⟩

/-- C3 (amended): `loadProjects`, `loadTools` and `loadSettings` return the
documented default when their file is absent, fails JSON parsing, or fails
schema validation, never propagating the exception; `loadRecents` returns
the default `[]` when the file is absent or fails JSON parsing, but
performs no schema validation and returns any successfully parsed JSON
value as-is. -/
theorem load_functions_default_on_errors :
    (getDefaultProjects = [] ∧
     loadProjects .absent = getDefaultProjects ∧
     loadProjects .unparseable = getDefaultProjects ∧
     ∀ j, parseConfig j = none → loadProjects (.parsed j) = getDefaultProjects) ∧
    (loadTools .absent = DEFAULT_TOOLS ∧
     loadTools .unparseable = DEFAULT_TOOLS ∧
     ∀ j, parseToolsConfig j = none → loadTools (.parsed j) = DEFAULT_TOOLS) ∧
    (loadSettings .absent = DEFAULT_SETTINGS ∧
     loadSettings .unparseable = DEFAULT_SETTINGS ∧
     ∀ j, parseSettings j = none → loadSettings (.parsed j) = DEFAULT_SETTINGS) ∧
    (loadRecents .absent = Json.arr [] ∧
     loadRecents .unparseable = Json.arr [] ∧
     ∀ j, loadRecents (.parsed j) = j) := by
  refine ⟨⟨rfl, rfl, rfl, ?_⟩, ⟨rfl, rfl, ?_⟩, ⟨rfl, rfl, ?_⟩, ⟨rfl, rfl, fun j => rfl⟩⟩
  · intro j h
    simp [loadProjects, h]
  · intro j h
    simp [loadTools, h]
  · intro j h
    simp [loadSettings, h]

/-- C3 witness: the amended theorem applied to a file that parses to the
JSON number 1, which fails validation for every schema. -/
theorem load_functions_default_on_errors_witness :
    loadProjects (.parsed (Json.num 1)) = getDefaultProjects ∧
    loadTools (.parsed (Json.num 1)) = DEFAULT_TOOLS ∧
    loadSettings (.parsed (Json.num 1)) = DEFAULT_SETTINGS ∧
    loadRecents (.parsed (Json.bool true)) = Json.bool true :=
  ⟨load_functions_default_on_errors.1.2.2.2 (Json.num 1) rfl,
   load_functions_default_on_errors.2.1.2.2 (Json.num 1) rfl,
   load_functions_default_on_errors.2.2.1.2.2 (Json.num 1) rfl,
   load_functions_default_on_errors.2.2.2.2.2 (Json.bool true)⟩

/-- C10: `loadTools` never yields an empty catalog — a `tools.json` that
parses to a schema-valid empty array is replaced by the built-in
`DEFAULT_TOOLS` — so `saveTools([])` followed by `loadTools()` yields the
default catalog, not the empty list: the save/load round-trip fails for the
empty tools list. -/
theorem loadTools_never_empty :
    (∀ fs, loadTools fs ≠ []) ∧
    loadTools (.parsed (Json.arr [])) = DEFAULT_TOOLS ∧
    loadTools (saveTools []) = DEFAULT_TOOLS ∧
    DEFAULT_TOOLS ≠ [] := by
  have hdef : DEFAULT_TOOLS ≠ [] := by
    rw [DEFAULT_TOOLS]
    exact List.cons_ne_nil _ _
  refine ⟨?_, rfl, rfl, hdef⟩
  intro fs
  cases fs with
  | absent => exact hdef
  | unparseable => exact hdef
  | parsed j =>
    show (match parseToolsConfig j with
      | none => DEFAULT_TOOLS
      | some ts => if ts.length > 0 then ts else DEFAULT_TOOLS) ≠ []
    cases h : parseToolsConfig j with
    | none => exact hdef
    | some ts =>
      cases ts with
      | nil => simpa using hdef
      | cons t rest => simp

theorem parseWorkspace_workspaceToJson (w : Workspace) :
    parseWorkspace (workspaceToJson w) = some w := by
  cases w
  rfl

theorem parseList_map (f : Json → Option α) (g : α → Json)
    (hfg : ∀ a, f (g a) = some a) (l : List α) :
    parseList f (l.map g) = some l := by
  induction l with
  | nil => rfl
  | cons a rest ih =>
    simp only [List.map_cons, parseList, hfg a, ih, Option.bind_eq_bind,
      Option.some_bind]
    rfl

theorem parseProject_projectToJson (p : Project) :
    parseProject (projectToJson p) = some p := by
  obtain ⟨n, pth, ws, cmd⟩ := p
  have hws := parseList_map parseWorkspace workspaceToJson
    parseWorkspace_workspaceToJson ws
  cases cmd <;>
    simp [parseProject, projectToJson, Json.lookupField, parseStr,
      optStrField, parseArr, hws]

/-- C7: saving any schema-valid Project array with `saveProjects` and
reloading it with `loadProjects` yields a structurally equal array — the
same sequence of projects with equal names, paths, workspace name/path
values, and optional commands (for the empty array both sides are `[]`,
since `getDefaultProjects()` is the empty list). -/
theorem saveProjects_loadProjects_roundtrip (ps : List Project) :
    loadProjects (saveProjects ps) = ps := by
  have h : parseConfig (.arr (ps.map projectToJson)) = some ps :=
    parseList_map parseProject projectToJson parseProject_projectToJson ps
  show (match parseConfig (.arr (ps.map projectToJson)) with
    | none => getDefaultProjects
    | some l => if l.length > 0 then l else getDefaultProjects) = ps
  rw [h]
  cases ps with
  | nil => rfl
  | cons p rest => simp

theorem find?_eq_some_split (p : α → Bool) (l : List α) (a : α)
    (h : l.find? p = some a) :
    p a = true ∧ ∃ pre post, l = pre ++ a :: post ∧ ∀ x ∈ pre, p x = false := by
  induction l with
  | nil => exact absurd h (by simp)
  | cons b rest ih =>
    rw [List.find?_cons] at h
    cases hb : p b with
    | true =>
      rw [hb] at h
      obtain rfl : b = a := by exact Option.some.inj h
      exact ⟨hb, [], rest, rfl, by simp⟩
    | false =>
      rw [hb] at h
      obtain ⟨hp, pre, post, rfl, hall⟩ := ih h
      refine ⟨hp, b :: pre, post, rfl, ?_⟩
      intro x hx
      rcases List.mem_cons.1 hx with rfl | hx
      · exact hb
      · exact hall x hx

/-- C2 counterexample: for the stored projects `["Alphabeta", "beta"]` and
query `"beta"`, an exact case-insensitive match (`"beta"`) exists, yet
`quickLaunch` resolves to `"Alphabeta"` — the single `find` pass accepts
the earlier substring match, so exact matches do not take precedence. -/
theorem quickLaunch_exact_first_cex :
    findProjectByQuery
        [⟨"Alphabeta", "C:\\a", [⟨"Root", "."⟩], none⟩,
         ⟨"beta", "C:\\b", [⟨"Root", "."⟩], none⟩] "beta"
      = some ⟨"Alphabeta", "C:\\a", [⟨"Root", "."⟩], none⟩ ∧
    findProjectSpecDescribed
        [⟨"Alphabeta", "C:\\a", [⟨"Root", "."⟩], none⟩,
         ⟨"beta", "C:\\b", [⟨"Root", "."⟩], none⟩] "beta"
      = some ⟨"beta", "C:\\b", [⟨"Root", "."⟩], none⟩ ∧
    ("Alphabeta" : String) ≠ "beta" := by
  refine ⟨by decide, by decide, by decide⟩

/-- C2 (amended): `quickLaunch` resolves the project with a single scan of
the stored order, each project matching if its name equals the query
case-insensitively OR contains it case-insensitively as a substring; the
first matching project wins, and an exact match later in the list does not
take precedence over an earlier substring match. Given projects
`["Alpha", "beta-app"]` and query `"BETA"`, it resolves to `"beta-app"`. -/
theorem quickLaunch_project_resolution (projects : List Project) (query : String) :
    (∀ p, findProjectByQuery projects query = some p →
      projectMatches query p = true ∧
      ∃ pre post, projects = pre ++ p :: post ∧
        ∀ q ∈ pre, projectMatches query q = false) ∧
    (findProjectByQuery projects query = none →
      ∀ p ∈ projects, projectMatches query p = false) ∧
    findProjectByQuery
        [⟨"Alpha", "C:\\alpha", [⟨"Root", "."⟩], none⟩,
         ⟨"beta-app", "C:\\beta", [⟨"Root", "."⟩], none⟩] "BETA"
      = some ⟨"beta-app", "C:\\beta", [⟨"Root", "."⟩], none⟩ := by
  refine ⟨?_, ?_, by decide⟩
  · intro p h
    exact find?_eq_some_split _ _ _ h
  · intro h p hp
    have := List.find?_eq_none.1 h p hp
    simpa using this

/-- C2 witness: the amended theorem applied to the two-project example and
query `"BETA"`, resolving to `"beta-app"` with the `"Alpha"` entry in front
of it not matching. -/
theorem quickLaunch_project_resolution_witness :
    projectMatches "BETA" ⟨"beta-app", "C:\\beta", [⟨"Root", "."⟩], none⟩ = true ∧
    ∃ pre post,
      [(⟨"Alpha", "C:\\alpha", [⟨"Root", "."⟩], none⟩ : Project),
       ⟨"beta-app", "C:\\beta", [⟨"Root", "."⟩], none⟩] =
        pre ++ (⟨"beta-app", "C:\\beta", [⟨"Root", "."⟩], none⟩ : Project) :: post ∧
      ∀ q ∈ pre, projectMatches "BETA" q = false :=
  (quickLaunch_project_resolution
    [⟨"Alpha", "C:\\alpha", [⟨"Root", "."⟩], none⟩,
     ⟨"beta-app", "C:\\beta", [⟨"Root", "."⟩], none⟩] "BETA").1 _ (by decide)

/-- C8: a tool with `enabled = false` never appears in the tool list the
interactive launch flow offers (`loadTools().filter(t => t.enabled)`) and is
never the tool `quickLaunch` selects; when `quickLaunch` gets no tool
argument, it uses the first enabled tool in registry order as the default. -/
theorem enabled_tools_only (tools : List Tool) :
    (∀ t ∈ launchFlowEligible tools, t.enabled = true) ∧
    (∀ q t, resolveQuickTool tools q = some t → t.enabled = true) ∧
    resolveQuickTool tools none = tools.find? (fun t => t.enabled) := by
  refine ⟨?_, ?_, ?_⟩
  · intro t ht
    exact (List.mem_filter.1 ht).2
  · intro q t h
    unfold resolveQuickTool at h
    by_cases hq : jsTruthy q = true
    · simp only [hq, if_true] at h
      exact (List.mem_filter.1 (List.mem_of_find?_eq_some h)).2
    · simp only [Bool.not_eq_true] at hq
      simp only [hq, Bool.false_eq_true, if_false] at h
      cases hl : tools.filter (fun t => t.enabled) with
      | nil => rw [hl] at h; exact absurd h (by simp)
      | cons a rest =>
        rw [hl] at h
        obtain rfl : a = t := by exact Option.some.inj h
        have : a ∈ tools.filter (fun t => t.enabled) := by
          rw [hl]; exact List.mem_cons_self a rest
        exact (List.mem_filter.1 this).2
  · show (tools.filter (fun t => t.enabled)).head? = tools.find? (fun t => t.enabled)
    exact head?_filter _ tools

/-- C8 witness: over the built-in catalog, the no-argument default is the
first enabled tool, and the tool resolved for the argument "vscode" is
enabled. -/
theorem enabled_tools_only_witness :
    resolveQuickTool DEFAULT_TOOLS none = DEFAULT_TOOLS.find? (fun t => t.enabled) ∧
    (⟨"vscode", "VS Code", "code", none, none, true, false, false, false,
      none, some ["*.code-workspace"]⟩ : Tool).enabled = true :=
  ⟨(enabled_tools_only DEFAULT_TOOLS).2.2,
   (enabled_tools_only DEFAULT_TOOLS).2.1 (some "vscode") _ (by decide)⟩

theorem launchTool_target (env : LaunchEnv) (tool : Tool) (ws : String) :
    (launchTool env tool ws).target = resolveTarget env tool ws := by
  simp only [launchTool]
  split
  · rfl
  · split <;> rfl

theorem launchTool_globCalls (env : LaunchEnv) (tool : Tool) (ws : String) :
    (launchTool env tool ws).globCalls = globCallsOf tool ws := by
  simp only [launchTool]
  split
  · rfl
  · split <;> rfl

theorem launchTool_attempts_head (env : LaunchEnv) (tool : Tool) (ws : String) :
    (launchTool env tool ws).attempts.head? =
      some (primaryCmd tool ws (resolveTarget env tool ws)) := by
  simp only [launchTool]
  split
  · rfl
  · split <;> rfl

/-- C1: for a tool with `launchInTerminal = true`, when the launcher's
admin-requirement flag (`tool.requiresAdmin`, the field `launchTool` reads)
is set, the first spawn is the elevation helper `gsudo` wrapping the
terminal-emulator invocation `wt -d <ws> pwsh -NoExit -Command <executable>`
in the workspace directory; without the admin requirement it is the same
terminal-emulator invocation without the `gsudo` wrapper. The spawn does not
consult elevation-helper availability, so it is issued in particular
whenever the helper is available. -/
theorem launchTool_terminal_elevation (env : LaunchEnv) (tool : Tool)
    (ws : String) (hterm : tool.launchInTerminal = true) :
    (tool.requiresAdmin = true →
      (launchTool env tool ws).attempts.head? =
        some ⟨"gsudo", ["wt", "-d", ws, "pwsh", "-NoExit", "-Command",
          tool.executable], ws⟩) ∧
    (tool.requiresAdmin = false →
      (launchTool env tool ws).attempts.head? =
        some ⟨"wt", ["-d", ws, "pwsh", "-NoExit", "-Command",
          tool.executable], ws⟩) := by
  constructor <;> intro hadm <;>
    rw [launchTool_attempts_head] <;>
    simp [primaryCmd, hterm, hadm]

/-- C1 witness: the elevation wrapper appears for a terminal tool with the
admin flag set and not for one without it. -/
theorem launchTool_terminal_elevation_witness :
    (launchTool ⟨fun _ => [], fun _ => true⟩
        ⟨"claude", "Claude Code", "claude", none, none, true, true, true, true,
          none, none⟩ "C:\\w").attempts.head? =
      some ⟨"gsudo", ["wt", "-d", "C:\\w", "pwsh", "-NoExit", "-Command",
        "claude"], "C:\\w"⟩ ∧
    (launchTool ⟨fun _ => [], fun _ => true⟩
        ⟨"claude", "Claude Code", "claude", none, none, true, true, true, false,
          none, none⟩ "C:\\w").attempts.head? =
      some ⟨"wt", ["-d", "C:\\w", "pwsh", "-NoExit", "-Command",
        "claude"], "C:\\w"⟩ :=
  ⟨(launchTool_terminal_elevation _ _ "C:\\w" rfl).1 rfl,
   (launchTool_terminal_elevation _ _ "C:\\w" rfl).2 rfl⟩

/-- C5: for a tool declaring a non-empty `projectFilePatterns` list,
`launchTool` issues exactly one glob search over the workspace directory
with `deep: 1, onlyFiles: true, absolute: true`; if the enumeration is
non-empty the launch target becomes its first entry (an absolute path),
otherwise the target remains the workspace directory itself. -/
theorem launchTool_project_file_target (env : LaunchEnv) (tool : Tool)
    (ws : String) (pats : List String)
    (hp : tool.projectFilePatterns = some pats) (hne : pats ≠ []) :
    (launchTool env tool ws).globCalls = [globCallOf ws pats] ∧
    (env.glob (globCallOf ws pats) = [] → (launchTool env tool ws).target = ws) ∧
    (∀ f rest, env.glob (globCallOf ws pats) = f :: rest →
      (launchTool env tool ws).target = f) := by
  have hlen : pats.length > 0 := List.length_pos.2 hne
  refine ⟨?_, ?_, ?_⟩
  · rw [launchTool_globCalls]
    simp [globCallsOf, hp, hlen]
  · intro hg
    rw [launchTool_target]
    simp [resolveTarget, hp, hlen, findProjectFile, hg]
  · intro f rest hg
    rw [launchTool_target]
    simp [resolveTarget, hp, hlen, findProjectFile, hg]

/-- C5 witness: with patterns `["*.sln"]` and a glob enumeration yielding
`foo.sln` first, the launch target is that file's absolute path. -/
theorem launchTool_project_file_target_witness :
    (launchTool ⟨fun _ => ["C:\\w\\foo.sln"], fun _ => true⟩
        ⟨"rider", "Rider", "rider", none, none, true, false, false, false,
          none, some ["*.sln"]⟩ "C:\\w").globCalls =
      [globCallOf "C:\\w" ["*.sln"]] ∧
    (launchTool ⟨fun _ => ["C:\\w\\foo.sln"], fun _ => true⟩
        ⟨"rider", "Rider", "rider", none, none, true, false, false, false,
          none, some ["*.sln"]⟩ "C:\\w").target = "C:\\w\\foo.sln" :=
  ⟨(launchTool_project_file_target _ _ "C:\\w" ["*.sln"] rfl (by simp)).1,
   (launchTool_project_file_target _ _ "C:\\w" ["*.sln"] rfl (by simp)).2.2
     "C:\\w\\foo.sln" [] rfl⟩

/-- C6: when the primary spawn fails, a terminal-mode tool gets exactly one
fallback attempt — the terminal emulator at the workspace directory with no
command — with the failure reported, and the fallback failure reported
exactly when the fallback also throws; a non-terminal tool gets no fallback
and the failure is reported directly. -/
theorem launchTool_failure_fallback (env : LaunchEnv) (tool : Tool)
    (ws : String)
    (hfail : env.spawnOk (primaryCmd tool ws (resolveTarget env tool ws)) = false) :
    (tool.launchInTerminal = true →
      (launchTool env tool ws).attempts =
        [primaryCmd tool ws (resolveTarget env tool ws), fallbackCmd ws] ∧
      (launchTool env tool ws).failureReported = true ∧
      ((launchTool env tool ws).fallbackFailureReported = true ↔
        env.spawnOk (fallbackCmd ws) = false)) ∧
    (tool.launchInTerminal = false →
      (launchTool env tool ws).attempts =
        [primaryCmd tool ws (resolveTarget env tool ws)] ∧
      (launchTool env tool ws).failureReported = true) := by
  have hres : launchTool env tool ws =
      (if tool.launchInTerminal then
        ⟨resolveTarget env tool ws, globCallsOf tool ws,
         [primaryCmd tool ws (resolveTarget env tool ws), fallbackCmd ws],
         false, true, !env.spawnOk (fallbackCmd ws), true⟩
       else
        ⟨resolveTarget env tool ws, globCallsOf tool ws,
         [primaryCmd tool ws (resolveTarget env tool ws)],
         false, true, false, true⟩) := by
    simp only [launchTool, hfail, Bool.false_eq_true, if_false]
  constructor
  · intro hterm
    rw [hres, hterm, if_pos rfl]
    refine ⟨rfl, rfl, ?_⟩
    cases h : env.spawnOk (fallbackCmd ws) <;> simp
  · intro hterm
    rw [hres, hterm]
    exact ⟨by simp, rfl⟩

/-- C6 witness: under an environment where every spawn fails, a
terminal-mode tool attempts primary then fallback, a non-terminal tool
attempts only the primary spawn and reports the failure. -/
theorem launchTool_failure_fallback_witness :
    (launchTool ⟨fun _ => [], fun _ => false⟩
        ⟨"claude", "Claude Code", "claude", none, none, true, true, true,
          false, none, none⟩ "C:\\w").attempts =
      [primaryCmd
        ⟨"claude", "Claude Code", "claude", none, none, true, true, true,
          false, none, none⟩ "C:\\w"
        (resolveTarget ⟨fun _ => [], fun _ => false⟩
          ⟨"claude", "Claude Code", "claude", none, none, true, true, true,
            false, none, none⟩ "C:\\w"),
       fallbackCmd "C:\\w"] ∧
    (launchTool ⟨fun _ => [], fun _ => false⟩
        ⟨"idea", "IntelliJ IDEA", "idea", none, none, true, false, false,
          false, none, none⟩ "C:\\w").attempts =
      [primaryCmd
        ⟨"idea", "IntelliJ IDEA", "idea", none, none, true, false, false,
          false, none, none⟩ "C:\\w"
        (resolveTarget ⟨fun _ => [], fun _ => false⟩
          ⟨"idea", "IntelliJ IDEA", "idea", none, none, true, false, false,
            false, none, none⟩ "C:\\w")] ∧
    (launchTool ⟨fun _ => [], fun _ => false⟩
        ⟨"idea", "IntelliJ IDEA", "idea", none, none, true, false, false,
          false, none, none⟩ "C:\\w").failureReported = true :=
  ⟨((launchTool_failure_fallback _ _ "C:\\w" rfl).1 rfl).1,
   ((launchTool_failure_fallback _ _ "C:\\w" rfl).2 rfl).1,
   ((launchTool_failure_fallback _ _ "C:\\w" rfl).2 rfl).2⟩

/-- C9: in `manageWorkspaces`, a delete request for the workspace at index 0
is rejected and leaves the sequence unchanged with nothing persisted; a
confirmed delete of any other valid index removes exactly that entry
(entries below the index are untouched, entries above shift down by one,
the length drops by one) and persists the change; and across all workspace
operations a non-empty workspaces sequence stays non-empty, with the
index-0 (Root) entry surviving every delete request. -/
theorem manageWorkspaces_root_protected (l : List Workspace) (i : Nat)
    (c : Bool) (hne : l ≠ []) (hi : i ≠ 0) (hlen : i < l.length) :
    wsDelete l 0 c = (l, false) ∧
    wsDelete l i true = (spliceOne l i, true) ∧
    (spliceOne l i).length + 1 = l.length ∧
    (∀ j, j < i → (spliceOne l i).get? j = l.get? j) ∧
    (∀ j, i ≤ j → (spliceOne l i).get? j = l.get? (j + 1)) ∧
    (∀ op : WsOp, applyWsOp l op ≠ []) ∧
    (∀ j c', (applyWsOp l (.delete j c')).head? = l.head?) := by
  refine ⟨by simp [wsDelete], by simp [wsDelete, hi], spliceOne_length l i hlen,
    fun j hj => spliceOne_get?_lt l i j hj,
    fun j hj => spliceOne_get?_ge l i j hj hlen, ?_, ?_⟩
  · intro op
    obtain ⟨w, t, rfl⟩ := List.exists_cons_of_ne_nil hne
    cases op with
    | add v => simp [applyWsOp]
    | rename k n =>
      cases k <;> simp [applyWsOp, wsSetName]
    | changePath k p =>
      cases k <;> simp [applyWsOp, wsSetPath]
    | delete k c' =>
      simp only [applyWsOp, wsDelete]
      by_cases hk : k = 0
      · simp [hk]
      · obtain ⟨m, rfl⟩ := Nat.exists_eq_succ_of_ne_zero hk
        cases c' <;> simp [spliceOne]
  · intro j c'
    simp only [applyWsOp, wsDelete]
    by_cases hj : j = 0
    · simp [hj]
    · cases c' <;> simp [hj, spliceOne_head? l j hj]

/-- C9 witness: on `[Root, Frontend]`, deleting index 0 is rejected while a
confirmed delete of index 1 removes exactly the Frontend entry and saves. -/
theorem manageWorkspaces_root_protected_witness :
    wsDelete [⟨"Root", "."⟩, ⟨"Frontend", "src"⟩] 0 true =
      ([⟨"Root", "."⟩, ⟨"Frontend", "src"⟩], false) ∧
    wsDelete [⟨"Root", "."⟩, ⟨"Frontend", "src"⟩] 1 true =
      (spliceOne [⟨"Root", "."⟩, ⟨"Frontend", "src"⟩] 1, true) ∧
    (spliceOne [(⟨"Root", "."⟩ : Workspace), ⟨"Frontend", "src"⟩] 1).length + 1 = 2 :=
  ⟨(manageWorkspaces_root_protected [⟨"Root", "."⟩, ⟨"Frontend", "src"⟩] 1 true
      (by simp) (by simp) (by simp)).1,
   (manageWorkspaces_root_protected [⟨"Root", "."⟩, ⟨"Frontend", "src"⟩] 1 true
      (by simp) (by simp) (by simp)).2.1,
   (manageWorkspaces_root_protected [⟨"Root", "."⟩, ⟨"Frontend", "src"⟩] 1 true
      (by simp) (by simp) (by simp)).2.2.1⟩

/-- C10 witness: the never-empty catalog property applied to a concrete
schema-invalid tools file. -/
theorem loadTools_never_empty_witness :
    loadTools (.parsed (Json.str "oops")) ≠ [] :=
  loadTools_never_empty.1 (.parsed (Json.str "oops"))
